import Mathlib

/-!
Verification of the browser session-pool coordinator of `site-planner`.

The model below is a shallow embedding of the two Durable Object session
managers of the repository:

* `BrowserSessionManager` in `src/lib/optimized-browser-service.ts`
  (methods `handleAcquireSession`, `handleReleaseSession`,
  `cleanupStaleSessions`, `findAvailableSession`, `handleStatus`,
  `getMaxSessions`), embedded at top level below;
* `SimpleBrowserSessionManager` in `src/lib/simple-session-manager.ts`
  (methods `acquireSession`, `releaseSession`, `cleanup`,
  `findAvailableSession`), embedded in namespace `SimpleManager`.

The JavaScript `Map<string, Session>` is embedded as a `List` of records in
insertion order (JS `Map` iterates in insertion order; `set` of a new key
appends, `set` of a present key updates in place, `delete` removes the entry
with that key).  The wall clock (`Date.now()`) is passed explicitly as a
`now : Nat` argument.  The Browser Factory (`@cloudflare/puppeteer`) is
embedded by its observable outcomes: `launchOk : Bool` tells whether
`puppeteer.launch` succeeds (it throws otherwise) and the fresh session id it
returns is the `newId` argument; `connectOk : String → Bool` tells whether the
`connect`/`close` pair during cleanup succeeds for a given id (the source
swallows that failure).  Each operation additionally returns the sequence of
observable effects it performs, in source order, so that ordering claims can
be stated.
-/

/-- One record of the session table.  Embeds interface `BrowserSession` of
`src/lib/optimized-browser-service.ts` (the simple manager's `SessionInfo` has
the same shape with `inUse` in place of `isActive`). -/
structure BrowserSession where
  sessionId : String
  lastUsed : Nat
  isActive : Bool
  createdAt : Nat
deriving DecidableEq

/-- Observable effects of one coordinator operation, in source order. -/
inductive Effect where
  /-- a `puppeteer.launch` call (the only slow factory call) -/
  | launch
  /-- `this.sessions.set(id, ...)` inserting a freshly created record -/
  | tableInsert (id : String)
  /-- in-place mutation of an existing record (`isActive` / `lastUsed`) -/
  | tableUpdate (id : String)
  /-- a synchronous `cleanupStaleSessions` pass -/
  | cleanupRun
deriving DecidableEq

/-- Result of an acquire request, as serialized in the JSON responses. -/
inductive AcquireResult where
  /-- `{sessionId, isReused: true, totalSessions}` -/
  | reused (sessionId : String) (total : Nat)
  /-- `{sessionId, isReused: false, totalSessions}` -/
  | created (sessionId : String) (total : Nat)
  /-- the `puppeteer.launch` failure is rethrown to the caller -/
  | creationFailure
  /-- `{error: 'Session limit reached', ...}` with HTTP status 429 -/
  | poolExhausted
deriving DecidableEq

/-- Result of a release request. -/
inductive ReleaseResult where
  /-- `{success: true, sessionId, totalSessions}` -/
  | success (sessionId : String) (total : Nat)
  /-- `{error: 'Session not found'}` with HTTP status 404 -/
  | notFound
deriving DecidableEq

/-- The session id carried by a successful acquire response, if any. -/
def AcquireResult.returnedId : AcquireResult → Option String
  | .reused id _ => some id
  | .created id _ => some id
  | .creationFailure => none
  | .poolExhausted => none

/-- `this.sessions.get(id)` on the insertion-ordered table. -/
def mapGet (sessions : List BrowserSession) (id : String) : Option BrowserSession :=
  sessions.find? (fun s => s.sessionId = id)

/-- `this.sessions.set(rec.sessionId, rec)`: update in place when the key is
present, append otherwise. -/
def mapSet (sessions : List BrowserSession) (r : BrowserSession) :
    List BrowserSession :=
  if sessions.any (fun s => s.sessionId = r.sessionId) then
    sessions.map (fun s => if s.sessionId = r.sessionId then r else s)
  else
    sessions ++ [r]

/-- `this.sessions.delete(id)`. -/
def mapDelete (sessions : List BrowserSession) (id : String) :
    List BrowserSession :=
  sessions.filter (fun s => s.sessionId ≠ id)

/-- `getMaxSessions()` of `optimized-browser-service.ts`: constant 8. -/
def maxSessions : Nat := 8

/-- `staleThreshold` of `cleanupStaleSessions`: 5 minutes in milliseconds. -/
def staleThreshold : Nat := 5 * 60 * 1000

/-- One iteration of the loop in `findAvailableSession`: keep the candidate
with the largest `lastUsed` among inactive records
(`!session.isActive && session.lastUsed > bestLastUsed`). -/
def findStep (acc : Option BrowserSession × Nat) (s : BrowserSession) :
    Option BrowserSession × Nat :=
  if s.isActive = false ∧ acc.2 < s.lastUsed then (some s, s.lastUsed) else acc

/-- `findAvailableSession()`: most-recently-used inactive record, starting
from `bestSession = undefined`, `bestLastUsed = 0`. -/
def findAvailableSession (sessions : List BrowserSession) :
    Option BrowserSession :=
  (sessions.foldl findStep ((none : Option BrowserSession), 0)).1

/-- The staleness test of `cleanupStaleSessions`:
`!session.isActive && (now - session.lastUsed) > staleThreshold`. -/
def isStale (now : Nat) (s : BrowserSession) : Bool :=
  !s.isActive && decide (staleThreshold < now - s.lastUsed)

/-- `cleanupStaleSessions()`: collect the ids of stale inactive records, then
for each one attempt `puppeteer.connect` + `browser.close` (outcome given by
`connectOk`, failures swallowed by the `try/catch`) and delete the record from
the table regardless of that outcome.  Returns the new table, the evicted
count (`sessionsToClose.length`) and the list of close outcomes. -/
def cleanupStaleSessions (now : Nat) (connectOk : String → Bool)
    (sessions : List BrowserSession) :
    List BrowserSession × Nat × List Bool :=
  let sessionsToClose :=
    (sessions.filter (fun s => isStale now s)).map (fun s => s.sessionId)
  let closeOutcomes := sessionsToClose.map connectOk
  let remaining := sessionsToClose.foldl mapDelete sessions
  (remaining, sessionsToClose.length, closeOutcomes)

/-- The in-place mutation `session.isActive = true; session.lastUsed = now`
performed on the record with the given id. -/
def markActive (sessions : List BrowserSession) (id : String) (now : Nat) :
    List BrowserSession :=
  sessions.map (fun s =>
    if s.sessionId = id then { s with isActive := true, lastUsed := now } else s)

/-- `handleAcquireSession` of `optimized-browser-service.ts`:
1. reuse the most-recently-used inactive session if one is found;
2. otherwise, if the table is at `maxSessions`, run `cleanupStaleSessions`
   synchronously, retry `findAvailableSession` once, and fail with the
   429 `Session limit reached` response if it still finds nothing;
3. otherwise `puppeteer.launch` a new browser and only then insert the new
   `Active` record into the table. -/
def handleAcquireSession (now : Nat) (newId : String) (launchOk : Bool)
    (connectOk : String → Bool) (sessions : List BrowserSession) :
    AcquireResult × List BrowserSession × List Effect :=
  match findAvailableSession sessions with
  | some avail =>
      (.reused avail.sessionId sessions.length,
       markActive sessions avail.sessionId now,
       [Effect.tableUpdate avail.sessionId])
  | none =>
      if maxSessions ≤ sessions.length then
        match findAvailableSession (cleanupStaleSessions now connectOk sessions).1 with
        | some avail =>
            (.reused avail.sessionId
               (cleanupStaleSessions now connectOk sessions).1.length,
             markActive (cleanupStaleSessions now connectOk sessions).1
               avail.sessionId now,
             [Effect.cleanupRun, Effect.tableUpdate avail.sessionId])
        | none =>
            (.poolExhausted, (cleanupStaleSessions now connectOk sessions).1,
             [Effect.cleanupRun])
      else
        if launchOk then
          (.created newId
             (mapSet sessions
               { sessionId := newId, lastUsed := now, isActive := true,
                 createdAt := now }).length,
           mapSet sessions
             { sessionId := newId, lastUsed := now, isActive := true,
               createdAt := now },
           [Effect.launch, Effect.tableInsert newId])
        else
          (.creationFailure, sessions, [Effect.launch])

/-- `handleReleaseSession`: 404 when the id is unknown, otherwise mark the
record inactive and refresh `lastUsed` (no ownership or state check). -/
def handleReleaseSession (now : Nat) (sessionId : String)
    (sessions : List BrowserSession) :
    ReleaseResult × List BrowserSession :=
  match mapGet sessions sessionId with
  | none => (.notFound, sessions)
  | some _ =>
      (.success sessionId sessions.length,
       sessions.map (fun s =>
         if s.sessionId = sessionId then
           { s with isActive := false, lastUsed := now }
         else s))

/-- The counts reported by `handleStatus`. -/
structure StatusCounts where
  total : Nat
  active : Nat
  inactive : Nat
  max : Nat
deriving DecidableEq

/-- `handleStatus()`: total / active / inactive / max counts (pure read). -/
def statusCounts (sessions : List BrowserSession) : StatusCounts :=
  { total := sessions.length,
    active := (sessions.filter (fun s => s.isActive)).length,
    inactive := (sessions.filter (fun s => !s.isActive)).length,
    max := maxSessions }

/-- One serialized coordinator operation, as dequeued by the Durable Object.
An acquire step carries the id the Browser Factory would issue; the factory
never issues the id of a session it still hosts, hence the freshness side
condition.  Timestamps come from `Date.now()`, which is positive. -/
inductive Step : List BrowserSession → List BrowserSession → Prop
  | acquire (now : Nat) (newId : String) (launchOk : Bool)
      (connectOk : String → Bool) (s : List BrowserSession)
      (hnow : 0 < now) (hfresh : ∀ r ∈ s, r.sessionId ≠ newId) :
      Step s (handleAcquireSession now newId launchOk connectOk s).2.1
  | release (now : Nat) (id : String) (s : List BrowserSession)
      (hnow : 0 < now) :
      Step s (handleReleaseSession now id s).2
  | cleanup (now : Nat) (connectOk : String → Bool) (s : List BrowserSession) :
      Step s (cleanupStaleSessions now connectOk s).1

/-- Tables reachable from the empty table by sequences of acquire, release
and cleanup operations. -/
inductive Reachable : List BrowserSession → Prop
  | empty : Reachable []
  | step {s t : List BrowserSession} : Reachable s → Step s t → Reachable t

namespace SimpleManager

/-- `SessionInfo` of `src/lib/simple-session-manager.ts`. -/
structure SessionInfo where
  sessionId : String
  lastUsed : Nat
  inUse : Bool
  createdAt : Nat
deriving DecidableEq

/-- `maxSessions` local constant of `acquireSession`: 8. -/
def maxSessions : Nat := 8

/-- `staleThreshold` of `cleanup`: 10 minutes in milliseconds. -/
def staleThreshold : Nat := 10 * 60 * 1000

/-- One iteration of the loop in the simple manager's
`findAvailableSession` (`!session.inUse && session.lastUsed > mostRecentUsed`). -/
def findStep (acc : Option SessionInfo × Nat) (s : SessionInfo) :
    Option SessionInfo × Nat :=
  if s.inUse = false ∧ acc.2 < s.lastUsed then (some s, s.lastUsed) else acc

/-- `findAvailableSession()` of the simple manager. -/
def findAvailableSession (sessions : List SessionInfo) : Option SessionInfo :=
  (sessions.foldl findStep ((none : Option SessionInfo), 0)).1

/-- `acquireSession()` of `simple-session-manager.ts`.  Unlike the optimized
manager it does NOT run a cleanup pass under pressure: when no session is
available and the table is at `maxSessions` it returns the 429 response
immediately. -/
def acquireSession (now : Nat) (newId : String) (launchOk : Bool)
    (sessions : List SessionInfo) :
    AcquireResult × List SessionInfo × List Effect :=
  match findAvailableSession sessions with
  | some avail =>
      (.reused avail.sessionId sessions.length,
       sessions.map (fun s =>
         if s.sessionId = avail.sessionId then
           { s with inUse := true, lastUsed := now }
         else s),
       [Effect.tableUpdate avail.sessionId])
  | none =>
      if maxSessions ≤ sessions.length then
        (.poolExhausted, sessions, [])
      else
        if launchOk then
          let newRec : SessionInfo :=
            { sessionId := newId, lastUsed := now, inUse := true,
              createdAt := now }
          (.created newId (sessions ++ [newRec]).length,
           sessions ++ [newRec],
           [Effect.launch, Effect.tableInsert newId])
        else
          (.creationFailure, sessions, [Effect.launch])

/-- `releaseSession()` of the simple manager. -/
def releaseSession (now : Nat) (sessionId : String)
    (sessions : List SessionInfo) : ReleaseResult × List SessionInfo :=
  match sessions.find? (fun s => s.sessionId = sessionId) with
  | none => (.notFound, sessions)
  | some _ =>
      (.success sessionId sessions.length,
       sessions.map (fun s =>
         if s.sessionId = sessionId then
           { s with inUse := false, lastUsed := now }
         else s))

/-- `cleanup()` of the simple manager: remove idle records stale by more than
10 minutes, tolerating close failures. -/
def cleanup (now : Nat) (connectOk : String → Bool)
    (sessions : List SessionInfo) : List SessionInfo × Nat × List Bool :=
  let isStaleInfo : SessionInfo → Bool := fun s =>
    !s.inUse && decide (staleThreshold < now - s.lastUsed)
  let sessionsToRemove := (sessions.filter isStaleInfo).map (fun s => s.sessionId)
  let closeOutcomes := sessionsToRemove.map connectOk
  let remaining := sessionsToRemove.foldl
    (fun tbl id => tbl.filter (fun s => s.sessionId ≠ id)) sessions
  (remaining, sessionsToRemove.length, closeOutcomes)

end SimpleManager

/-! ## Basic lemmas about the table operations -/

/-- Any session returned by the `findAvailableSession` loop is an inactive
member of the table with a positive `lastUsed`. -/
theorem findAux_sound (t : BrowserSession) (l : List BrowserSession) :
    ∀ acc : Option BrowserSession × Nat,
      (l.foldl findStep acc).1 = some t →
      acc.1 = some t ∨ (t ∈ l ∧ t.isActive = false ∧ 0 < t.lastUsed) := by
  induction l with
  | nil => intro acc h; exact Or.inl h
  | cons s l ih =>
      intro acc h
      simp only [List.foldl_cons] at h
      rcases ih (findStep acc s) h with h1 | h1
      · unfold findStep at h1
        by_cases hc : s.isActive = false ∧ acc.2 < s.lastUsed
        · rw [if_pos hc] at h1
          simp only [Option.some.injEq] at h1
          subst h1
          exact Or.inr ⟨List.mem_cons_self s l, hc.1,
            Nat.lt_of_le_of_lt (Nat.zero_le acc.2) hc.2⟩
        · rw [if_neg hc] at h1
          exact Or.inl h1
      · exact Or.inr ⟨List.mem_cons_of_mem s h1.1, h1.2.1, h1.2.2⟩

/-- Soundness of `findAvailableSession`. -/
theorem findAvailableSession_sound {t : BrowserSession}
    {l : List BrowserSession} (h : findAvailableSession l = some t) :
    t ∈ l ∧ t.isActive = false ∧ 0 < t.lastUsed := by
  rcases findAux_sound t l ((none : Option BrowserSession), 0) h with h1 | h1
  · exact absurd h1 (by simp)
  · exact h1

/-- The loop never forgets a candidate once it has one. -/
theorem findAux_some (l : List BrowserSession) :
    ∀ (u : BrowserSession) (b : Nat),
      ∃ v, (l.foldl findStep (some u, b)).1 = some v := by
  induction l with
  | nil => intro u b; exact ⟨u, rfl⟩
  | cons s l ih =>
      intro u b
      simp only [List.foldl_cons, findStep]
      split
      · exact ih s s.lastUsed
      · exact ih u b

/-- Completeness: an inactive record with positive `lastUsed` makes the scan
succeed. -/
theorem findAvailableSession_complete {l : List BrowserSession}
    {t : BrowserSession} (hmem : t ∈ l) (hidle : t.isActive = false)
    (hpos : 0 < t.lastUsed) : ∃ v, findAvailableSession l = some v := by
  unfold findAvailableSession
  induction l with
  | nil => cases hmem
  | cons s l ih =>
      simp only [List.foldl_cons, findStep]
      split
      · exact findAux_some l s s.lastUsed
      · rename_i hcond
        rcases List.mem_cons.mp hmem with rfl | hmem'
        · exact absurd ⟨hidle, hpos⟩ hcond
        · exact ih hmem'

/-- If nothing beats the current best, the loop returns it unchanged. -/
theorem findAux_keep (l : List BrowserSession) :
    ∀ (o : Option BrowserSession) (b : Nat),
      (∀ u ∈ l, u.isActive = false → u.lastUsed ≤ b) →
      l.foldl findStep (o, b) = (o, b) := by
  induction l with
  | nil => intro o b _; rfl
  | cons s l ih =>
      intro o b hall
      simp only [List.foldl_cons, findStep]
      split
      · rename_i hc
        exact absurd (hall s (List.mem_cons_self s l) hc.1) (not_le.mpr hc.2)
      · exact ih o b (fun u hu => hall u (List.mem_cons_of_mem s hu))

/-- The loop returns the unique most-recently-used inactive record. -/
theorem findAux_max (m : BrowserSession) (l : List BrowserSession) :
    ∀ (o : Option BrowserSession) (b : Nat),
      m ∈ l → m.isActive = false → b < m.lastUsed →
      (∀ u ∈ l, u.isActive = false → u.lastUsed ≤ m.lastUsed) →
      (∀ u ∈ l, u.isActive = false → u.lastUsed = m.lastUsed → u = m) →
      l.foldl findStep (o, b) = (some m, m.lastUsed) := by
  induction l with
  | nil => intro o b hmem; cases hmem
  | cons s l ih =>
      intro o b hmem hidle hb hle huniq
      simp only [List.foldl_cons, findStep]
      by_cases hsm : s = m
      · subst hsm
        split
        · exact findAux_keep l (some s) s.lastUsed
            (fun u hu hui => hle u (List.mem_cons_of_mem s hu) hui)
        · rename_i hc
          exact absurd ⟨hidle, hb⟩ hc
      · have hmem' : m ∈ l := by
          rcases List.mem_cons.mp hmem with rfl | h
          · exact absurd rfl hsm
          · exact h
        split
        · rename_i hc
          have hlt : s.lastUsed < m.lastUsed := by
            rcases Nat.lt_or_ge s.lastUsed m.lastUsed with h | h
            · exact h
            · have hle' := hle s (List.mem_cons_self s l) hc.1
              exact absurd (huniq s (List.mem_cons_self s l) hc.1
                (Nat.le_antisymm hle' h)) hsm
          exact ih (some s) s.lastUsed hmem' hidle hlt
            (fun u hu => hle u (List.mem_cons_of_mem s hu))
            (fun u hu => huniq u (List.mem_cons_of_mem s hu))
        · exact ih o b hmem' hidle hb
            (fun u hu => hle u (List.mem_cons_of_mem s hu))
            (fun u hu => huniq u (List.mem_cons_of_mem s hu))

/-- MRU selection of `findAvailableSession`, stated for a unique maximum. -/
theorem findAvailableSession_max {m : BrowserSession} {l : List BrowserSession}
    (hmem : m ∈ l) (hidle : m.isActive = false) (hpos : 0 < m.lastUsed)
    (hle : ∀ u ∈ l, u.isActive = false → u.lastUsed ≤ m.lastUsed)
    (huniq : ∀ u ∈ l, u.isActive = false → u.lastUsed = m.lastUsed → u = m) :
    findAvailableSession l = some m := by
  unfold findAvailableSession
  rw [findAux_max m l none 0 hmem hidle hpos hle huniq]

/-- Membership after the delete loop of `cleanupStaleSessions`. -/
theorem foldl_mapDelete_mem (ids : List String) :
    ∀ (l : List BrowserSession) (r : BrowserSession),
      r ∈ ids.foldl mapDelete l ↔ r ∈ l ∧ r.sessionId ∉ ids := by
  induction ids with
  | nil => intro l r; simp
  | cons id ids ih =>
      intro l r
      simp only [List.foldl_cons]
      rw [ih]
      simp only [mapDelete, List.mem_filter, decide_eq_true_eq, List.mem_cons,
        not_or, ne_eq]
      tauto

/-- The delete loop of `cleanupStaleSessions` yields a sublist. -/
theorem foldl_mapDelete_sublist (ids : List String) :
    ∀ l : List BrowserSession, List.Sublist (ids.foldl mapDelete l) l := by
  induction ids with
  | nil => intro l; exact List.Sublist.refl l
  | cons id ids ih =>
      intro l
      simp only [List.foldl_cons]
      exact (ih (mapDelete l id)).trans (List.filter_sublist l)

/-- Updating records in place preserves the key sequence of the table. -/
theorem map_sessionId_update (f : BrowserSession → BrowserSession)
    (hf : ∀ s, (f s).sessionId = s.sessionId) (l : List BrowserSession) :
    (l.map f).map (fun s => s.sessionId) = l.map (fun s => s.sessionId) := by
  induction l with
  | nil => rfl
  | cons s l ih => simp only [List.map_cons, hf, ih]

/-- `markActive` preserves the key sequence. -/
theorem markActive_ids (l : List BrowserSession) (id : String) (now : Nat) :
    (markActive l id now).map (fun s => s.sessionId)
      = l.map (fun s => s.sessionId) :=
  map_sessionId_update _
    (fun s => by by_cases h : s.sessionId = id <;> simp [h]) l

/-- `markActive` preserves the table size. -/
theorem markActive_length (l : List BrowserSession) (id : String) (now : Nat) :
    (markActive l id now).length = l.length := by
  simp [markActive]

/-- Inserting a record under a key absent from the table appends it. -/
theorem mapSet_fresh (l : List BrowserSession) (r : BrowserSession)
    (h : ∀ s ∈ l, s.sessionId ≠ r.sessionId) : mapSet l r = l ++ [r] := by
  have hc : ¬ (l.any (fun s => s.sessionId = r.sessionId) = true) := by
    simp only [List.any_eq_true, decide_eq_true_eq, not_exists, not_and]
    intro s hs
    exact h s hs
  unfold mapSet
  rw [if_neg hc]

/-- Membership in the table after a cleanup pass. -/
theorem cleanup_mem (now : Nat) (connectOk : String → Bool)
    (l : List BrowserSession) (r : BrowserSession) :
    r ∈ (cleanupStaleSessions now connectOk l).1 ↔
      r ∈ l ∧ r.sessionId ∉
        (l.filter (fun s => isStale now s)).map (fun s => s.sessionId) :=
  foldl_mapDelete_mem _ l r

/-- A cleanup pass only removes records. -/
theorem cleanup_sublist (now : Nat) (connectOk : String → Bool)
    (l : List BrowserSession) :
    List.Sublist (cleanupStaleSessions now connectOk l).1 l :=
  foldl_mapDelete_sublist _ l

/-- The evicted count reported by a cleanup pass. -/
theorem cleanup_count (now : Nat) (connectOk : String → Bool)
    (l : List BrowserSession) :
    (cleanupStaleSessions now connectOk l).2.1
      = (l.filter (fun s => isStale now s)).length := by
  simp [cleanupStaleSessions]

/-! ## Path lemmas for `handleAcquireSession` -/

/-- Reuse path: an available session short-circuits everything else. -/
theorem handleAcquire_reuse {l : List BrowserSession} {avail : BrowserSession}
    (now : Nat) (newId : String) (launchOk : Bool) (connectOk : String → Bool)
    (hfa : findAvailableSession l = some avail) :
    handleAcquireSession now newId launchOk connectOk l
      = (.reused avail.sessionId l.length,
         markActive l avail.sessionId now,
         [Effect.tableUpdate avail.sessionId]) := by
  unfold handleAcquireSession
  rw [hfa]

/-- Pressure path, successful retry after the synchronous cleanup. -/
theorem handleAcquire_pressure_reuse {l : List BrowserSession}
    {avail : BrowserSession} (now : Nat) (newId : String) (launchOk : Bool)
    (connectOk : String → Bool)
    (hfa : findAvailableSession l = none)
    (hlen : maxSessions ≤ l.length)
    (hfa2 : findAvailableSession (cleanupStaleSessions now connectOk l).1
      = some avail) :
    handleAcquireSession now newId launchOk connectOk l
      = (.reused avail.sessionId (cleanupStaleSessions now connectOk l).1.length,
         markActive (cleanupStaleSessions now connectOk l).1 avail.sessionId now,
         [Effect.cleanupRun, Effect.tableUpdate avail.sessionId]) := by
  unfold handleAcquireSession
  rw [hfa, if_pos hlen, hfa2]

/-- Pressure path, exhausted even after the cleanup retry. -/
theorem handleAcquire_exhausted {l : List BrowserSession}
    (now : Nat) (newId : String) (launchOk : Bool) (connectOk : String → Bool)
    (hfa : findAvailableSession l = none)
    (hlen : maxSessions ≤ l.length)
    (hfa2 : findAvailableSession (cleanupStaleSessions now connectOk l).1
      = none) :
    handleAcquireSession now newId launchOk connectOk l
      = (.poolExhausted, (cleanupStaleSessions now connectOk l).1,
         [Effect.cleanupRun]) := by
  unfold handleAcquireSession
  rw [hfa, if_pos hlen, hfa2]

/-- Creation path: `launch` succeeds and the record is inserted afterwards. -/
theorem handleAcquire_create {l : List BrowserSession}
    (now : Nat) (newId : String) (connectOk : String → Bool)
    (hfa : findAvailableSession l = none)
    (hlen : ¬ maxSessions ≤ l.length) :
    handleAcquireSession now newId true connectOk l
      = (.created newId
           (mapSet l
             { sessionId := newId, lastUsed := now,
               isActive := true, createdAt := now }).length,
         mapSet l
           { sessionId := newId, lastUsed := now,
             isActive := true, createdAt := now },
         [Effect.launch, Effect.tableInsert newId]) := by
  unfold handleAcquireSession
  rw [hfa, if_neg hlen, if_pos rfl]

/-- Creation path with a failing `launch`: the error propagates and the table
is left unchanged. -/
theorem handleAcquire_create_fail {l : List BrowserSession}
    (now : Nat) (newId : String) (connectOk : String → Bool)
    (hfa : findAvailableSession l = none)
    (hlen : ¬ maxSessions ≤ l.length) :
    handleAcquireSession now newId false connectOk l
      = (.creationFailure, l, [Effect.launch]) := by
  unfold handleAcquireSession
  rw [hfa, if_neg hlen]
  simp

/-! ## Path lemmas for `handleReleaseSession` -/

/-- Unknown id: the 404 path leaves the table untouched. -/
theorem handleRelease_notFound {l : List BrowserSession} (now : Nat)
    (id : String) (hg : mapGet l id = none) :
    handleReleaseSession now id l = (.notFound, l) := by
  unfold handleReleaseSession
  rw [hg]

/-- Known id: the record is marked inactive and its `lastUsed` refreshed. -/
theorem handleRelease_found {l : List BrowserSession} {rec : BrowserSession}
    (now : Nat) (id : String) (hg : mapGet l id = some rec) :
    handleReleaseSession now id l
      = (.success id l.length,
         l.map (fun s =>
           if s.sessionId = id then
             { s with isActive := false, lastUsed := now }
           else s)) := by
  unfold handleReleaseSession
  rw [hg]

/-! ## Invariants of reachable tables -/

/-- One operation preserves key uniqueness. -/
theorem step_nodup {s t : List BrowserSession} (hstep : Step s t)
    (hnd : (s.map (fun r => r.sessionId)).Nodup) :
    (t.map (fun r => r.sessionId)).Nodup := by
  cases hstep with
  | acquire now newId launchOk connectOk sarg hnow hfresh =>
      rcases hfa : findAvailableSession s with _ | avail
      · by_cases hlen : maxSessions ≤ s.length
        · rcases hfa2 : findAvailableSession
              (cleanupStaleSessions now connectOk s).1 with _ | avail2
          · rw [handleAcquire_exhausted now newId launchOk connectOk hfa
              hlen hfa2]
            exact List.Nodup.sublist
              (List.Sublist.map _ (cleanup_sublist now connectOk s)) hnd
          · rw [handleAcquire_pressure_reuse now newId launchOk connectOk
              hfa hlen hfa2]
            simp only [markActive_ids]
            exact List.Nodup.sublist
              (List.Sublist.map _ (cleanup_sublist now connectOk s)) hnd
        · cases launchOk
          · rw [handleAcquire_create_fail now newId connectOk hfa hlen]
            exact hnd
          · rw [handleAcquire_create now newId connectOk hfa hlen]
            rw [mapSet_fresh s _ hfresh]
            have hnm : newId ∉ s.map (fun r => r.sessionId) := by
              simp only [List.mem_map, not_exists, not_and]
              intro r hrr hre
              exact hfresh r hrr hre
            simp [List.nodup_append, hnd, hnm]
      · rw [handleAcquire_reuse now newId launchOk connectOk hfa]
        simp only [markActive_ids]
        exact hnd
  | release now id sarg hnow =>
      rcases hg : mapGet s id with _ | rec
      · rw [handleRelease_notFound now id hg]
        exact hnd
      · rw [handleRelease_found now id hg]
        rw [map_sessionId_update _
          (fun u => by by_cases hcase : u.sessionId = id <;> simp [hcase])]
        exact hnd
  | cleanup now connectOk sarg =>
      exact List.Nodup.sublist
        (List.Sublist.map _ (cleanup_sublist now connectOk s)) hnd

/-- One operation never grows the table past `maxSessions`, because the
creation path is guarded by `sessions.size < maxSessions`. -/
theorem step_length {s t : List BrowserSession} (hstep : Step s t)
    (hlen8 : s.length ≤ maxSessions) : t.length ≤ maxSessions := by
  cases hstep with
  | acquire now newId launchOk connectOk sarg hnow hfresh =>
      rcases hfa : findAvailableSession s with _ | avail
      · by_cases hlen : maxSessions ≤ s.length
        · rcases hfa2 : findAvailableSession
              (cleanupStaleSessions now connectOk s).1 with _ | avail2
          · rw [handleAcquire_exhausted now newId launchOk connectOk hfa
              hlen hfa2]
            exact le_trans
              (List.Sublist.length_le (cleanup_sublist now connectOk s)) hlen8
          · rw [handleAcquire_pressure_reuse now newId launchOk connectOk
              hfa hlen hfa2]
            rw [markActive_length]
            exact le_trans
              (List.Sublist.length_le (cleanup_sublist now connectOk s)) hlen8
        · cases launchOk
          · rw [handleAcquire_create_fail now newId connectOk hfa hlen]
            exact hlen8
          · rw [handleAcquire_create now newId connectOk hfa hlen]
            rw [mapSet_fresh s _ hfresh]
            simp only [List.length_append, List.length_cons, List.length_nil]
            omega
      · rw [handleAcquire_reuse now newId launchOk connectOk hfa]
        rw [markActive_length]
        exact hlen8
  | release now id sarg hnow =>
      rcases hg : mapGet s id with _ | rec
      · rw [handleRelease_notFound now id hg]
        exact hlen8
      · rw [handleRelease_found now id hg]
        simpa using hlen8
  | cleanup now connectOk sarg =>
      exact le_trans
        (List.Sublist.length_le (cleanup_sublist now connectOk s)) hlen8

/-- Key uniqueness (invariant 1 of the Session Table) holds in every
reachable table. -/
theorem reachable_nodup {s : List BrowserSession} (h : Reachable s) :
    (s.map (fun r => r.sessionId)).Nodup := by
  induction h with
  | empty => simp
  | step hr hstep ih => exact step_nodup hstep ih

/-- A reachable table never holds more than `maxSessions` records. -/
theorem reachable_length {s : List BrowserSession} (h : Reachable s) :
    s.length ≤ maxSessions := by
  induction h with
  | empty => simp
  | step hr hstep ih => exact step_length hstep ih

/-! ## Claim theorems -/

/-- C2: Capacity bound.  In every state reachable from the empty table by any
sequence of acquire, release and cleanup operations, the number of records in
state Active never exceeds `maxSessions` (8), because acquire creates a new
record only when the total record count is strictly below `maxSessions`. -/
theorem claim_C2_capacity_bound {s : List BrowserSession} (hs : Reachable s) :
    (s.filter (fun r => r.isActive)).length ≤ maxSessions :=
  le_trans (List.length_filter_le _ s) (reachable_length hs)

/-- Witness for C2 at a concrete reachable state (one acquire from empty). -/
theorem claim_C2_capacity_bound_witness :
    (((handleAcquireSession 5 "s1" true (fun _ => true) []).2.1).filter
      (fun r => r.isActive)).length ≤ maxSessions :=
  claim_C2_capacity_bound
    (Reachable.step Reachable.empty
      (Step.acquire 5 "s1" true (fun _ => true) [] (by decide) (by simp)))

/-- C1: Mutual exclusion.  In any table reachable from the empty table,
`acquire` never returns a session id whose record is currently Active: every
record the pre-state table holds under the returned id is in state Idle
(`isActive = false`), so acquire and release form a mutual-exclusion protocol
over each record. -/
theorem claim_C1_mutual_exclusion {s : List BrowserSession} (hs : Reachable s)
    (now : Nat) (newId : String) (launchOk : Bool) (connectOk : String → Bool)
    (hfresh : ∀ r ∈ s, r.sessionId ≠ newId) (id : String)
    (hid : (handleAcquireSession now newId launchOk connectOk s).1.returnedId
      = some id) :
    ∀ rec, mapGet s id = some rec → rec.isActive = false := by
  intro rec hrec
  have hrecmem : rec ∈ s := List.mem_of_find?_eq_some hrec
  have hrecid : rec.sessionId = id := by
    have hp := List.find?_some hrec
    simpa using hp
  have hinj := List.inj_on_of_nodup_map (reachable_nodup hs)
  rcases hfa : findAvailableSession s with _ | avail
  · by_cases hlen : maxSessions ≤ s.length
    · rcases hfa2 : findAvailableSession
          (cleanupStaleSessions now connectOk s).1 with _ | avail2
      · rw [handleAcquire_exhausted now newId launchOk connectOk hfa hlen
          hfa2] at hid
        simp [AcquireResult.returnedId] at hid
      · rw [handleAcquire_pressure_reuse now newId launchOk connectOk hfa
          hlen hfa2] at hid
        simp only [AcquireResult.returnedId, Option.some.injEq] at hid
        subst hid
        have hav := findAvailableSession_sound hfa2
        have havmem : avail2 ∈ s :=
          List.Sublist.subset (cleanup_sublist now connectOk s) hav.1
        have heq : rec = avail2 := hinj hrecmem havmem hrecid
        rw [heq]
        exact hav.2.1
    · cases launchOk
      · rw [handleAcquire_create_fail now newId connectOk hfa hlen] at hid
        simp [AcquireResult.returnedId] at hid
      · rw [handleAcquire_create now newId connectOk hfa hlen] at hid
        simp only [AcquireResult.returnedId, Option.some.injEq] at hid
        subst hid
        exact absurd hrecid (hfresh rec hrecmem)
  · rw [handleAcquire_reuse now newId launchOk connectOk hfa] at hid
    simp only [AcquireResult.returnedId, Option.some.injEq] at hid
    subst hid
    have hav := findAvailableSession_sound hfa
    have heq : rec = avail := hinj hrecmem hav.1 hrecid
    rw [heq]
    exact hav.2.1

/-- Witness for C1: after acquire/release of `"sA"`, a second acquire reuses
`"sA"`, and the record held under that id in the pre-state is Idle. -/
theorem claim_C1_mutual_exclusion_witness :
    BrowserSession.isActive (⟨"sA", 2, false, 1⟩ : BrowserSession) = false := by
  have h1 : Reachable [(⟨"sA", 1, true, 1⟩ : BrowserSession)] := by
    have hstep := Reachable.step Reachable.empty
      (Step.acquire 1 "sA" true (fun _ => true) [] (by decide) (by simp))
    simpa [handleAcquireSession, findAvailableSession, mapSet, maxSessions,
      List.foldl] using hstep
  have h2 : Reachable [(⟨"sA", 2, false, 1⟩ : BrowserSession)] := by
    have hstep := Reachable.step h1 (Step.release 2 "sA" _ (by decide))
    simpa [handleReleaseSession, mapGet, List.find?] using hstep
  exact claim_C1_mutual_exclusion h2 3 "sB" true (fun _ => true)
    (by simp) "sA" (by rfl) (⟨"sA", 2, false, 1⟩ : BrowserSession) (by rfl)

/-- Updating some records of a table keeps all `lastUsed` values positive when
the refreshed value is a positive `now`. -/
theorem pos_of_update_mem {l : List BrowserSession}
    {f : BrowserSession → BrowserSession} {now : Nat}
    (hf : ∀ a, (f a).lastUsed = now ∨ (f a).lastUsed = a.lastUsed)
    (hnow : 0 < now) (hp : ∀ r ∈ l, 0 < r.lastUsed) :
    ∀ r ∈ l.map f, 0 < r.lastUsed := by
  intro r hr
  rcases List.mem_map.mp hr with ⟨a, ha, rfl⟩
  rcases hf a with h | h
  · rw [h]; exact hnow
  · rw [h]; exact hp a ha

/-- One operation keeps every record's `lastUsed` positive (timestamps are
`Date.now()` values). -/
theorem step_pos {s t : List BrowserSession} (hstep : Step s t)
    (hp : ∀ r ∈ s, 0 < r.lastUsed) : ∀ r ∈ t, 0 < r.lastUsed := by
  cases hstep with
  | acquire now newId launchOk connectOk sarg hnow hfresh =>
      have hcleanpos : ∀ r ∈ (cleanupStaleSessions now connectOk s).1,
          0 < r.lastUsed :=
        fun r hr => hp r (List.Sublist.subset (cleanup_sublist now connectOk s) hr)
      rcases hfa : findAvailableSession s with _ | avail
      · by_cases hlen : maxSessions ≤ s.length
        · rcases hfa2 : findAvailableSession
              (cleanupStaleSessions now connectOk s).1 with _ | avail2
          · rw [handleAcquire_exhausted now newId launchOk connectOk hfa
              hlen hfa2]
            exact hcleanpos
          · rw [handleAcquire_pressure_reuse now newId launchOk connectOk
              hfa hlen hfa2]
            exact pos_of_update_mem
              (fun a => by by_cases hc : a.sessionId = avail2.sessionId <;>
                simp [markActive, hc]) hnow hcleanpos
        · cases launchOk
          · rw [handleAcquire_create_fail now newId connectOk hfa hlen]
            exact hp
          · rw [handleAcquire_create now newId connectOk hfa hlen]
            rw [mapSet_fresh s _ hfresh]
            intro r hr
            rcases List.mem_append.mp hr with h | h
            · exact hp r h
            · simp only [List.mem_singleton] at h
              rw [h]
              exact hnow
      · rw [handleAcquire_reuse now newId launchOk connectOk hfa]
        exact pos_of_update_mem
          (fun a => by by_cases hc : a.sessionId = avail.sessionId <;>
            simp [markActive, hc]) hnow hp
  | release now id sarg hnow =>
      rcases hg : mapGet s id with _ | rec
      · rw [handleRelease_notFound now id hg]
        exact hp
      · rw [handleRelease_found now id hg]
        exact pos_of_update_mem
          (fun a => by by_cases hc : a.sessionId = id <;> simp [hc]) hnow hp
  | cleanup now connectOk sarg =>
      exact fun r hr =>
        hp r (List.Sublist.subset (cleanup_sublist now connectOk s) hr)

/-- In a reachable table every record has a positive `lastUsed`. -/
theorem reachable_pos {s : List BrowserSession} (h : Reachable s) :
    ∀ r ∈ s, 0 < r.lastUsed := by
  induction h with
  | empty => intro r hr; cases hr
  | step hr hstep ih => exact step_pos hstep ih

/-- A concrete reachable table holding one Idle record: acquire `"sA"` from
the empty table, then release it. -/
theorem reachable_demo : Reachable [(⟨"sA", 2, false, 1⟩ : BrowserSession)] := by
  have h1 : Reachable [(⟨"sA", 1, true, 1⟩ : BrowserSession)] := by
    have hstep := Reachable.step Reachable.empty
      (Step.acquire 1 "sA" true (fun _ => true) [] (by decide) (by simp))
    simpa [handleAcquireSession, findAvailableSession, mapSet, maxSessions,
      List.foldl] using hstep
  have hstep := Reachable.step h1 (Step.release 2 "sA" _ (by decide))
  simpa [handleReleaseSession, mapGet, List.find?] using hstep

/-- C5: Reuse preference.  Whenever at least one Idle record exists in a
reachable table at the moment acquire is called, acquire returns a reused
result (`wasReused: true`) with the unchanged total, performs no `launch`
call, and leaves the table's record count unchanged. -/
theorem claim_C5_reuse_preference {l : List BrowserSession} (hs : Reachable l)
    (now : Nat) (newId : String) (launchOk : Bool) (connectOk : String → Bool)
    (h : ∃ t ∈ l, t.isActive = false) :
    (∃ id, (handleAcquireSession now newId launchOk connectOk l).1
        = .reused id l.length)
    ∧ Effect.launch ∉ (handleAcquireSession now newId launchOk connectOk l).2.2
    ∧ (handleAcquireSession now newId launchOk connectOk l).2.1.length
        = l.length := by
  obtain ⟨t, htmem, htidle⟩ := h
  obtain ⟨v, hv⟩ := findAvailableSession_complete htmem htidle
    (reachable_pos hs t htmem)
  rw [handleAcquire_reuse now newId launchOk connectOk hv]
  refine ⟨⟨v.sessionId, rfl⟩, ?_, markActive_length l v.sessionId now⟩
  simp

/-- Witness for C5 at the table reached by acquire + release of `"sA"`. -/
theorem claim_C5_reuse_preference_witness :
    (∃ id, (handleAcquireSession 9 "sB" true (fun _ => true)
        [(⟨"sA", 2, false, 1⟩ : BrowserSession)]).1
      = .reused id [(⟨"sA", 2, false, 1⟩ : BrowserSession)].length)
    ∧ Effect.launch ∉ (handleAcquireSession 9 "sB" true (fun _ => true)
        [(⟨"sA", 2, false, 1⟩ : BrowserSession)]).2.2
    ∧ (handleAcquireSession 9 "sB" true (fun _ => true)
        [(⟨"sA", 2, false, 1⟩ : BrowserSession)]).2.1.length
      = [(⟨"sA", 2, false, 1⟩ : BrowserSession)].length :=
  claim_C5_reuse_preference reachable_demo 9 "sB" true (fun _ => true)
    ⟨⟨"sA", 2, false, 1⟩, by decide, by decide⟩

/-- C6: MRU selection.  When the table holds an Idle record that strictly
dominates every other Idle record by `lastTouchedAt`, acquire reuses exactly
that record. -/
theorem claim_C6_mru_selection {l : List BrowserSession} {m : BrowserSession}
    (now : Nat) (newId : String) (launchOk : Bool) (connectOk : String → Bool)
    (hmem : m ∈ l) (hidle : m.isActive = false) (hpos : 0 < m.lastUsed)
    (hle : ∀ u ∈ l, u.isActive = false → u.lastUsed ≤ m.lastUsed)
    (huniq : ∀ u ∈ l, u.isActive = false → u.lastUsed = m.lastUsed → u = m) :
    (handleAcquireSession now newId launchOk connectOk l).1
      = .reused m.sessionId l.length := by
  rw [handleAcquire_reuse now newId launchOk connectOk
    (findAvailableSession_max hmem hidle hpos hle huniq)]

/-- Witness for C6: with idle records A (`lastTouchedAt = 10`) and
B (`lastTouchedAt = 20`), acquire returns B's id. -/
theorem claim_C6_mru_selection_witness :
    (handleAcquireSession 30 "new" true (fun _ => true)
        [(⟨"sessA", 10, false, 1⟩ : BrowserSession),
         (⟨"sessB", 20, false, 2⟩ : BrowserSession)]).1
      = .reused "sessB" 2 :=
  @claim_C6_mru_selection
    [(⟨"sessA", 10, false, 1⟩ : BrowserSession),
     (⟨"sessB", 20, false, 2⟩ : BrowserSession)]
    (⟨"sessB", 20, false, 2⟩ : BrowserSession)
    30 "new" true (fun _ => true)
    (by decide) (by decide) (by decide) (by decide) (by decide)

/-- C7: Eviction safety.  Every record that is Active when cleanup runs is
still present, with all fields unchanged, after cleanup returns, no matter
how old it is; cleanup removes only Idle records. -/
theorem claim_C7_eviction_safety {l : List BrowserSession}
    (now : Nat) (connectOk : String → Bool)
    (hnd : (l.map (fun r => r.sessionId)).Nodup)
    (rec : BrowserSession) (hmem : rec ∈ l) (hact : rec.isActive = true) :
    rec ∈ (cleanupStaleSessions now connectOk l).1 := by
  rw [cleanup_mem]
  refine ⟨hmem, ?_⟩
  intro habs
  rcases List.mem_map.mp habs with ⟨u, hu, huid⟩
  have humem : u ∈ l := (List.mem_filter.mp hu).1
  have hustale : isStale now u = true := (List.mem_filter.mp hu).2
  have heq : u = rec := List.inj_on_of_nodup_map hnd humem hmem huid
  subst heq
  unfold isStale at hustale
  simp [hact] at hustale

/-- Witness for C7: a very old Active record (age far beyond the threshold,
with failing factory closes) survives cleanup unchanged. -/
theorem claim_C7_eviction_safety_witness :
    (⟨"a", 1, true, 1⟩ : BrowserSession)
      ∈ (cleanupStaleSessions 1000000 (fun _ => false)
          [(⟨"a", 1, true, 1⟩ : BrowserSession)]).1 :=
  @claim_C7_eviction_safety [(⟨"a", 1, true, 1⟩ : BrowserSession)]
    1000000 (fun _ => false) (by decide)
    (⟨"a", 1, true, 1⟩ : BrowserSession) (by decide) (by decide)

/-- C8: Eviction liveness.  Every Idle record staler than the threshold is
removed by cleanup — independently of the factory connect/close outcomes —
and the evicted count equals the number of such records. -/
theorem claim_C8_eviction_liveness (l : List BrowserSession)
    (now : Nat) (connectOk : String → Bool) :
    (∀ rec ∈ l, isStale now rec = true →
        rec ∉ (cleanupStaleSessions now connectOk l).1)
    ∧ (cleanupStaleSessions now connectOk l).2.1
        = (l.filter (fun r => isStale now r)).length
    ∧ (∀ g : String → Bool,
        (cleanupStaleSessions now g l).1
            = (cleanupStaleSessions now connectOk l).1
        ∧ (cleanupStaleSessions now g l).2.1
            = (cleanupStaleSessions now connectOk l).2.1) := by
  refine ⟨?_, cleanup_count now connectOk l, fun g => ⟨rfl, rfl⟩⟩
  intro rec hmem hstale
  rw [cleanup_mem]
  rintro ⟨-, habs⟩
  exact habs (List.mem_map_of_mem _ (List.mem_filter.mpr ⟨hmem, hstale⟩))

/-- Witness for C8: an Idle record idle for longer than 5 minutes is evicted
even though every factory close fails, and the evicted count is 1. -/
theorem claim_C8_eviction_liveness_witness :
    (⟨"stale1", 1, false, 1⟩ : BrowserSession)
        ∉ (cleanupStaleSessions 400000 (fun _ => false)
            [(⟨"stale1", 1, false, 1⟩ : BrowserSession)]).1
    ∧ (cleanupStaleSessions 400000 (fun _ => false)
        [(⟨"stale1", 1, false, 1⟩ : BrowserSession)]).2.1 = 1 := by
  refine ⟨(claim_C8_eviction_liveness
      [(⟨"stale1", 1, false, 1⟩ : BrowserSession)] 400000 (fun _ => false)).1
      (⟨"stale1", 1, false, 1⟩ : BrowserSession) (by decide) (by decide), ?_⟩
  rw [(claim_C8_eviction_liveness
      [(⟨"stale1", 1, false, 1⟩ : BrowserSession)] 400000 (fun _ => false)).2.1]
  decide

/-- C9: Unknown release is reported and harmless.  Releasing an id absent
from the table yields the `NotFound` condition and leaves the table — and the
counts reported by status — completely unchanged. -/
theorem claim_C9_unknown_release {l : List BrowserSession}
    (now : Nat) (id : String) (habs : ∀ r ∈ l, r.sessionId ≠ id) :
    (handleReleaseSession now id l).1 = .notFound
    ∧ (handleReleaseSession now id l).2 = l
    ∧ statusCounts (handleReleaseSession now id l).2 = statusCounts l := by
  have hg : mapGet l id = none := by
    unfold mapGet
    rw [List.find?_eq_none]
    intro r hr
    simpa using habs r hr
  rw [handleRelease_notFound now id hg]
  exact ⟨rfl, rfl, rfl⟩

/-- Witness for C9: releasing `"nonexistent"` against a one-record table. -/
theorem claim_C9_unknown_release_witness :
    (handleReleaseSession 5 "nonexistent"
        [(⟨"x", 1, true, 1⟩ : BrowserSession)]).1 = .notFound
    ∧ (handleReleaseSession 5 "nonexistent"
        [(⟨"x", 1, true, 1⟩ : BrowserSession)]).2
      = [(⟨"x", 1, true, 1⟩ : BrowserSession)]
    ∧ statusCounts (handleReleaseSession 5 "nonexistent"
        [(⟨"x", 1, true, 1⟩ : BrowserSession)]).2
      = statusCounts [(⟨"x", 1, true, 1⟩ : BrowserSession)] :=
  @claim_C9_unknown_release [(⟨"x", 1, true, 1⟩ : BrowserSession)]
    5 "nonexistent" (by decide)

/-- Updating the record stored under `id` in place is visible through
`find?` on the key. -/
theorem find?_map_update (id : String) (f : BrowserSession → BrowserSession)
    (hid : ∀ s, (f s).sessionId = s.sessionId) :
    ∀ (l : List BrowserSession) (rec : BrowserSession),
      l.find? (fun s => s.sessionId = id) = some rec →
      (l.map (fun s => if s.sessionId = id then f s else s)).find?
          (fun s => s.sessionId = id) = some (f rec) := by
  intro l
  induction l with
  | nil => intro rec h; simp at h
  | cons s l ih =>
      intro rec h
      by_cases hc : s.sessionId = id
      · rw [List.find?_cons_of_pos _ (by simpa using hc)] at h
        injection h with h
        subst h
        simp only [List.map_cons, if_pos hc]
        exact List.find?_cons_of_pos _ (by simp [hid, hc])
      · rw [List.find?_cons_of_neg _ (by simpa using hc)] at h
        simp only [List.map_cons, if_neg hc]
        rw [List.find?_cons_of_neg _ (by simpa using hc)]
        exact ih rec h

/-- C10: Release checks neither ownership nor current state.  For any id
present in the table, release succeeds, marks the record Idle and refreshes
its `lastTouchedAt` to the current time — also when the record is already
Idle, so a duplicate or stale release is indistinguishable from a first
release and restarts the record's staleness clock. -/
theorem claim_C10_release_no_ownership {l : List BrowserSession}
    {rec : BrowserSession} (now : Nat) (id : String)
    (hg : mapGet l id = some rec) :
    (handleReleaseSession now id l).1 = .success id l.length
    ∧ mapGet (handleReleaseSession now id l).2 id
        = some { rec with isActive := false, lastUsed := now } := by
  rw [handleRelease_found now id hg]
  refine ⟨rfl, ?_⟩
  exact find?_map_update id
    (fun s => { s with isActive := false, lastUsed := now })
    (fun s => by simp) l rec hg

/-- Witness for C10: releasing an id whose record is already Idle still
succeeds and refreshes `lastTouchedAt` (from 3 to 7). -/
theorem claim_C10_release_no_ownership_witness :
    (handleReleaseSession 7 "dup"
        [(⟨"dup", 3, false, 1⟩ : BrowserSession)]).1 = .success "dup" 1
    ∧ mapGet (handleReleaseSession 7 "dup"
        [(⟨"dup", 3, false, 1⟩ : BrowserSession)]).2 "dup"
      = some (⟨"dup", 7, false, 1⟩ : BrowserSession) :=
  @claim_C10_release_no_ownership [(⟨"dup", 3, false, 1⟩ : BrowserSession)]
    (⟨"dup", 3, false, 1⟩ : BrowserSession) 7 "dup" (by decide)

/-- In the optimized manager, a pool-exhausted response can only come out of
the pressure path, whose trace contains the synchronous cleanup pass. -/
theorem poolExhausted_cleanup (now : Nat) (newId : String) (launchOk : Bool)
    (connectOk : String → Bool) (l : List BrowserSession)
    (hres : (handleAcquireSession now newId launchOk connectOk l).1
      = .poolExhausted) :
    Effect.cleanupRun
      ∈ (handleAcquireSession now newId launchOk connectOk l).2.2 := by
  rcases hfa : findAvailableSession l with _ | avail
  · by_cases hlen : maxSessions ≤ l.length
    · rcases hfa2 : findAvailableSession
          (cleanupStaleSessions now connectOk l).1 with _ | avail2
      · rw [handleAcquire_exhausted now newId launchOk connectOk hfa hlen hfa2]
        simp
      · rw [handleAcquire_pressure_reuse now newId launchOk connectOk hfa
          hlen hfa2] at hres
        simp at hres
    · cases launchOk
      · rw [handleAcquire_create_fail now newId connectOk hfa hlen] at hres
        simp at hres
      · rw [handleAcquire_create now newId connectOk hfa hlen] at hres
        simp at hres
  · rw [handleAcquire_reuse now newId launchOk connectOk hfa] at hres
    simp at hres

/-- C3 (amended to the optimized `BrowserSessionManager`): when acquire finds
no Idle record and the table has reached `maxSessions`, it runs the cleanup
pass exactly once, retries the idle scan exactly once (it fails if and only
if that retry finds nothing), and it never returns the pool-exhausted
response without a cleanup pass in its trace. -/
theorem claim_C3_pressure_cleanup_retry {l : List BrowserSession}
    (now : Nat) (newId : String) (launchOk : Bool) (connectOk : String → Bool)
    (h1 : findAvailableSession l = none)
    (h2 : maxSessions ≤ l.length) :
    ((handleAcquireSession now newId launchOk connectOk l).2.2).count
        Effect.cleanupRun = 1
    ∧ ((handleAcquireSession now newId launchOk connectOk l).1
          = .poolExhausted
        ↔ findAvailableSession (cleanupStaleSessions now connectOk l).1 = none)
    ∧ (∀ lC : List BrowserSession,
        (handleAcquireSession now newId launchOk connectOk lC).1
            = .poolExhausted →
        Effect.cleanupRun
          ∈ (handleAcquireSession now newId launchOk connectOk lC).2.2) := by
  refine ⟨?_, ?_, fun lC => poolExhausted_cleanup now newId launchOk connectOk lC⟩
  · rcases hfa2 : findAvailableSession
        (cleanupStaleSessions now connectOk l).1 with _ | avail2
    · rw [handleAcquire_exhausted now newId launchOk connectOk h1 h2 hfa2]
      rfl
    · rw [handleAcquire_pressure_reuse now newId launchOk connectOk h1 h2 hfa2]
      simp [List.count_cons]
  · rcases hfa2 : findAvailableSession
        (cleanupStaleSessions now connectOk l).1 with _ | avail2
    · rw [handleAcquire_exhausted now newId launchOk connectOk h1 h2 hfa2]
      simp
    · rw [handleAcquire_pressure_reuse now newId launchOk connectOk h1 h2 hfa2]
      simp

/-- Witness for the amended C3 at a full table of 8 Active records. -/
theorem claim_C3_pressure_cleanup_retry_witness :
    ((handleAcquireSession 1000 "w" true (fun _ => true)
        [(⟨"a1", 1, true, 1⟩ : BrowserSession), ⟨"a2", 1, true, 1⟩,
         ⟨"a3", 1, true, 1⟩, ⟨"a4", 1, true, 1⟩, ⟨"a5", 1, true, 1⟩,
         ⟨"a6", 1, true, 1⟩, ⟨"a7", 1, true, 1⟩,
         ⟨"a8", 1, true, 1⟩]).2.2).count Effect.cleanupRun = 1
    ∧ ((handleAcquireSession 1000 "w" true (fun _ => true)
        [(⟨"a1", 1, true, 1⟩ : BrowserSession), ⟨"a2", 1, true, 1⟩,
         ⟨"a3", 1, true, 1⟩, ⟨"a4", 1, true, 1⟩, ⟨"a5", 1, true, 1⟩,
         ⟨"a6", 1, true, 1⟩, ⟨"a7", 1, true, 1⟩,
         ⟨"a8", 1, true, 1⟩]).1 = .poolExhausted
      ↔ findAvailableSession (cleanupStaleSessions 1000 (fun _ => true)
        [(⟨"a1", 1, true, 1⟩ : BrowserSession), ⟨"a2", 1, true, 1⟩,
         ⟨"a3", 1, true, 1⟩, ⟨"a4", 1, true, 1⟩, ⟨"a5", 1, true, 1⟩,
         ⟨"a6", 1, true, 1⟩, ⟨"a7", 1, true, 1⟩,
         ⟨"a8", 1, true, 1⟩]).1 = none) := by
  have h := @claim_C3_pressure_cleanup_retry
    [(⟨"a1", 1, true, 1⟩ : BrowserSession), ⟨"a2", 1, true, 1⟩,
     ⟨"a3", 1, true, 1⟩, ⟨"a4", 1, true, 1⟩, ⟨"a5", 1, true, 1⟩,
     ⟨"a6", 1, true, 1⟩, ⟨"a7", 1, true, 1⟩, ⟨"a8", 1, true, 1⟩]
    1000 "w" true (fun _ => true) (by decide) (by decide)
  exact ⟨h.1, h.2.1⟩

/-- C3 counterexample: `SimpleBrowserSessionManager.acquireSession` — the
manager `src/worker.tsx` actually binds as the `BrowserSessionManager`
Durable Object — returns the pool-exhausted (429) response at a full table of
8 Active records with an empty effect trace: no cleanup pass is run before
failing. -/
theorem claim_C3_counterexample :
    (SimpleManager.acquireSession 1000 "new" true
        [(⟨"b1", 1, true, 1⟩ : SimpleManager.SessionInfo), ⟨"b2", 1, true, 1⟩,
         ⟨"b3", 1, true, 1⟩, ⟨"b4", 1, true, 1⟩, ⟨"b5", 1, true, 1⟩,
         ⟨"b6", 1, true, 1⟩, ⟨"b7", 1, true, 1⟩,
         ⟨"b8", 1, true, 1⟩]).1 = .poolExhausted
    ∧ (SimpleManager.acquireSession 1000 "new" true
        [(⟨"b1", 1, true, 1⟩ : SimpleManager.SessionInfo), ⟨"b2", 1, true, 1⟩,
         ⟨"b3", 1, true, 1⟩, ⟨"b4", 1, true, 1⟩, ⟨"b5", 1, true, 1⟩,
         ⟨"b6", 1, true, 1⟩, ⟨"b7", 1, true, 1⟩,
         ⟨"b8", 1, true, 1⟩]).2.2 = [] := ⟨rfl, rfl⟩

/-- C4: in the session-creation path of both managers, the table mutation
recording the new record FOLLOWS the slow `puppeteer.launch` call — acquiring
on the empty table performs `[launch, tableInsert]`, so no placeholder
reservation marks the table before the creation call begins. -/
theorem claim_C4_no_reservation_before_launch :
    (handleAcquireSession 100 "sNew" true (fun _ => true) []).2.2
      = [Effect.launch, Effect.tableInsert "sNew"]
    ∧ (SimpleManager.acquireSession 100 "sNew" true []).2.2
      = [Effect.launch, Effect.tableInsert "sNew"] := ⟨rfl, rfl⟩
